import Mathlib

/-! Shallow embedding of `src/Projektet.py`: a SimPy discrete-event
simulation in which PC processes issue HTTP requests through FIFO and
Priority switches (bounded resources) to stateless HTTP servers, while
module-level structures collect loss counts, latency/delay samples and
per-switch queue-length samples.  Virtual time is embedded as `ℚ`; the
process-wide `random` stream is embedded as an explicit seedable
linear-congruential stream; each `PC.request_http` coroutine becomes an
explicit state machine driven by a time-ordered event agenda. -/

unseal Rat.mul Rat.inv Rat.add Rat.sub

set_option maxRecDepth 2048

namespace Projektet

/-- Configuration constants of the script (source lines 7-14).  The Python
module hard-codes these at top level; spec section 6 treats them as
construction inputs, so the embedding passes them in one record.
`lossProb` embeds the literal `0.1` of line 48, `thinkLo`/`thinkHi` the
range of line 35, `svcLo`/`svcHi` the range of line 77. -/
structure Config where
  numRequests : Nat
  numPCs : Nat
  numServers : Nat
  numSwitches : Nat
  fifoCount : Nat
  priorityCount : Nat
  switchCapacity : Nat
  lossProb : ℚ
  thinkLo : ℚ
  thinkHi : ℚ
  svcLo : ℚ
  svcHi : ℚ
deriving DecidableEq

/-- The constants of source lines 8-14 plus the literals 0.1 (line 48),
0.1-0.5 (line 35) and 0.5-1.5 (line 77). -/
def defaultConfig : Config :=
  ⟨50, 30, 3, 12, 8, 8, 1, 1/10, 1/10, 1/2, 1/2, 3/2⟩

/-- Stand-in for the process-wide `random` generator (line 2): a
linear-congruential stream over a state in `Nat`.  The claims depend only
on every draw being a deterministic function of the current stream state
and on `randUnit` landing in `[0,1)`, which this stream guarantees. -/
def rngNext (s : Nat) : Nat := (1103515245 * s + 12345) % 2147483648

/-- One draw of `random.random()`: a rational in `[0,1)` plus the advanced
stream state. -/
def randUnit (s : Nat) : ℚ × Nat :=
  ((rngNext s : ℚ) / (2147483648 : ℚ), rngNext s)

/-- One draw of `random.uniform(a, b)` (lines 35 and 77). -/
def uniform (a b : ℚ) (s : Nat) : ℚ × Nat :=
  (a + (b - a) * (randUnit s).1, (randUnit s).2)

/-- One draw of `random.choice` over a sequence of length `n` (lines
39-40): `none` embeds the `IndexError` Python raises on an empty
sequence. -/
def choiceIdx (n : Nat) (s : Nat) : Option (Nat × Nat) :=
  if n = 0 then none else some (rngNext s % n, rngNext s)

/-- Queueing discipline: `FIFOQueue` is a `simpy.Resource` (line 82),
`PriorityQueue` a `simpy.PriorityResource` (line 87). -/
inductive Discipline
  | fifo
  | priority
deriving DecidableEq

/-- A pending (not yet granted) request sitting in a switch's waiting
queue: owning PC index, the priority key the request was submitted with
(`switch.request()` at line 46 always uses the library default key 0),
the already-chosen server, the time the request was issued, and the
iteration tag identifying the request. -/
structure Waiter where
  pc : Nat
  prio : Int
  srv : Nat
  reqTime : ℚ
  iter : Nat
deriving DecidableEq

/-- A switch (lines 82-90): a named bounded resource.  `users` lists the
PC indices currently holding a slot (simpy's `Resource.users`); `waiting`
is the pending-request queue in arrival order (simpy's put queue). -/
structure Switch where
  name : String
  disc : Discipline
  capacity : Nat
  users : List Nat
  waiting : List Waiter
deriving DecidableEq

/-- FIFO dequeue: the next waiter is the earliest arrival. -/
def selectFifo : List Waiter → Option (Waiter × List Waiter)
  | [] => none
  | w :: ws => some (w, ws)

/-- Priority dequeue (simpy `PriorityResource`): the waiter with the
numerically smallest key, ties broken by arrival order; returns it and
the remaining waiters in their original order. -/
def selectPriority : List Waiter → Option (Waiter × List Waiter)
  | [] => none
  | w :: ws =>
    match selectPriority ws with
    | none => some (w, ws)
    | some (m, rest) =>
      if m.prio < w.prio then some (m, w :: rest) else some (w, ws)

/-- Discipline-indexed dequeue policy. -/
def selectNext : Discipline → List Waiter → Option (Waiter × List Waiter)
  | .fifo => selectFifo
  | .priority => selectPriority

/-- Control-flow position of a `PC.request_http` coroutine (lines 33-68).
The iteration tag is the value of `remaining` after the iteration began,
so `(pc, iter)` identifies one request. -/
inductive Phase
  | idle
  | thinking (iter : Nat)
  | waitingGrant (sw : Nat) (iter : Nat)
  | grantedWait (sw : Nat) (srv : Nat) (reqT : ℚ) (grantT : ℚ) (iter : Nat)
  | inService (sw : Nat) (reqT : ℚ) (grantT : ℚ) (svcStart : ℚ) (iter : Nat)
  | finished
deriving DecidableEq

/-- A PC (lines 25-31): name, loop iterations not yet begun (line 34),
the `successful_requests` counter (line 31) and the coroutine position. -/
structure PCState where
  name : String
  remaining : Nat
  successful : Nat
  phase : Phase
deriving DecidableEq

/-- Outcome of one request: served by a server, or dropped by the 10%
loss branch of line 48. -/
inductive Outcome
  | succeeded
  | lost
deriving DecidableEq

/-- Ledger entry written when a request's lifecycle ends: identifies the
request, the switch used, issue/grant times, optional service start/end
times (absent on loss), the time its switch slot was given back, and the
outcome. -/
structure ReqRecord where
  pc : Nat
  iter : Nat
  sw : Nat
  reqTime : ℚ
  grantT : ℚ
  svcStart : Option ℚ
  svcEnd : Option ℚ
  releaseT : ℚ
  outcome : Outcome
deriving DecidableEq

/-- One entry of the `switch_stats` dict (lines 22 and 107-109), in dict
insertion order. -/
structure StatEntry where
  name : String
  queue_lengths : List Nat
  utilization : List ℚ
deriving DecidableEq

/-- Pending scheduler events: process start (line 116), think-timeout
expiry (line 35), slot grant resumption (line 47), and service completion
(line 57). -/
inductive Ev
  | procStart (i : Nat)
  | afterThink (i : Nat)
  | granted (i : Nat)
  | svcDone (i : Nat)
deriving DecidableEq

/-- Full simulation state: configuration, virtual clock, random stream,
time-ordered event agenda, the PCs, switches and server names, and the
module-level collection structures of lines 17-22 plus the outcome and
record ledgers. -/
structure Sim where
  cfg : Config
  now : ℚ
  rng : Nat
  agenda : List (ℚ × Ev)
  pcs : List PCState
  switches : List Switch
  servers : List String
  dataLossFifo : Nat
  dataLossPriority : Nat
  latF : List ℚ
  latP : List ℚ
  delF : List ℚ
  delP : List ℚ
  overallLat : List ℚ
  overallDel : List ℚ
  switchStats : List StatEntry
  outcomes : List (Nat × Nat × Outcome)
  records : List ReqRecord
deriving DecidableEq

/-- Insert an event into the agenda keeping it sorted by time, new events
after existing events of the same time: simpy's tie-break is scheduling
order (spec section 4.1). -/
def schedule (t : ℚ) (e : Ev) : List (ℚ × Ev) → List (ℚ × Ev)
  | [] => [(t, e)]
  | (t', e') :: rest =>
    if t < t' then (t, e) :: (t', e') :: rest
    else (t', e') :: schedule t e rest

/-- Replace PC `i`. -/
def setPC (s : Sim) (i : Nat) (p : PCState) : Sim :=
  { s with pcs := s.pcs.set i p }

/-- Replace switch `k`. -/
def setSwitch (s : Sim) (k : Nat) (sw : Switch) : Sim :=
  { s with switches := s.switches.set k sw }

/-- Line 44: append one queue-length sample to the `switch_stats` entry
keyed by `name` (entries with any other name are untouched). -/
def appendSample (stats : List StatEntry) (name : String) (len : Nat) :
    List StatEntry :=
  stats.map fun e =>
    if e.name = name then { e with queue_lengths := e.queue_lengths ++ [len] }
    else e

/-- Errors the Python run can raise: `IndexError` from `random.choice` on
an empty sequence, and a marker for event/coroutine combinations the
Python control flow cannot produce. -/
inductive SimErr
  | indexError
  | protocolError
deriving DecidableEq

/-- Top of the `for` loop of line 34: if the quota is exhausted the
coroutine returns, otherwise it starts an iteration by drawing a think
time (line 35) and sleeping on it. -/
def beginIteration (s : Sim) (i : Nat) (p : PCState) : Sim :=
  if p.remaining = 0 then
    setPC s i { p with phase := .finished }
  else
    { setPC s i { p with remaining := p.remaining - 1,
                         phase := .thinking (p.remaining - 1) } with
      rng := (uniform s.cfg.thinkLo s.cfg.thinkHi s.rng).2,
      agenda := schedule (s.now + (uniform s.cfg.thinkLo s.cfg.thinkHi s.rng).1)
        (.afterThink i) s.agenda }

/-- Give PC `i`'s slot on switch `k` back (exit of the `with` block,
line 46) and, as simpy's release trigger does, immediately hand the slot
to the next waiter per discipline if capacity allows, scheduling that
waiter's resumption at the current instant. -/
def releaseSlot (s : Sim) (k : Nat) (i : Nat) : Sim :=
  match s.switches[k]? with
  | none => s
  | some sw =>
    if (sw.users.erase i).length < sw.capacity then
      match selectNext sw.disc sw.waiting with
      | none => setSwitch s k { sw with users := sw.users.erase i }
      | some (w, rest) =>
        match s.pcs[w.pc]? with
        | none =>
          setSwitch s k { sw with users := sw.users.erase i, waiting := rest }
        | some q =>
          { setPC
              (setSwitch s k
                { sw with users := sw.users.erase i ++ [w.pc], waiting := rest })
              w.pc
              { q with phase := .grantedWait k w.srv w.reqTime s.now w.iter } with
            agenda := schedule s.now (.granted w.pc) s.agenda }
    else
      setSwitch s k { sw with users := sw.users.erase i }

/-- Lines 36-47: think time expired.  Record the issue time, choose a
switch and a server (lines 39-40, `IndexError` on an empty pool), sample
the chosen switch's current waiting-queue length into `switch_stats`
(lines 43-44), then request a slot: granted immediately when a slot is
free, else join the waiting queue with the default priority key 0. -/
def handleAfterThink (s : Sim) (i : Nat) : Except SimErr Sim :=
  match s.pcs[i]? with
  | none => .error .protocolError
  | some p =>
    match p.phase with
    | .thinking iter =>
      match choiceIdx s.switches.length s.rng with
      | none => .error .indexError
      | some (k, r1) =>
        match choiceIdx s.servers.length r1 with
        | none => .error .indexError
        | some (srv, r2) =>
          match s.switches[k]? with
          | none => .error .protocolError
          | some sw =>
            if sw.users.length < sw.capacity then
              .ok { setPC
                      (setSwitch
                        { s with rng := r2,
                                 switchStats := appendSample s.switchStats
                                   sw.name sw.waiting.length }
                        k { sw with users := sw.users ++ [i] })
                      i { p with phase := .grantedWait k srv s.now s.now iter } with
                    agenda := schedule s.now (.granted i) s.agenda }
            else
              .ok (setPC
                    (setSwitch
                      { s with rng := r2,
                               switchStats := appendSample s.switchStats
                                 sw.name sw.waiting.length }
                      k { sw with waiting :=
                            sw.waiting ++ [⟨i, 0, srv, s.now, iter⟩] })
                    i { p with phase := .waitingGrant k iter })
    | _ => .error .protocolError

/-- Lines 47-57: the slot was granted and the coroutine resumes.  Draw
the loss value (line 48); below the loss probability the discipline-keyed
loss counter is incremented (lines 49-52), the slot is given back by the
`continue` leaving the `with` block (line 53), and the loop moves on.
Otherwise service begins: the service duration is drawn (line 77) and
completion is scheduled. -/
def handleGranted (s : Sim) (i : Nat) : Except SimErr Sim :=
  match s.pcs[i]? with
  | none => .error .protocolError
  | some p =>
    match p.phase with
    | .grantedWait k srv reqT grantT iter =>
      match s.switches[k]? with
      | none => .error .protocolError
      | some sw =>
        if (randUnit s.rng).1 < s.cfg.lossProb then
          match
            (releaseSlot
              { s with rng := (randUnit s.rng).2,
                       dataLossFifo :=
                         if sw.disc = .fifo then s.dataLossFifo + 1
                         else s.dataLossFifo,
                       dataLossPriority :=
                         if sw.disc = .priority then s.dataLossPriority + 1
                         else s.dataLossPriority,
                       outcomes := s.outcomes ++ [(i, iter, .lost)],
                       records := s.records ++
                         [⟨i, iter, k, reqT, grantT, none, none, s.now, .lost⟩] }
              k i).pcs[i]? with
          | none => .error .protocolError
          | some p2 =>
            .ok (beginIteration
                  (releaseSlot
                    { s with rng := (randUnit s.rng).2,
                             dataLossFifo :=
                               if sw.disc = .fifo then s.dataLossFifo + 1
                               else s.dataLossFifo,
                             dataLossPriority :=
                               if sw.disc = .priority then s.dataLossPriority + 1
                               else s.dataLossPriority,
                             outcomes := s.outcomes ++ [(i, iter, .lost)],
                             records := s.records ++
                               [⟨i, iter, k, reqT, grantT, none, none, s.now,
                                 .lost⟩] }
                    k i) i p2)
        else
          .ok { setPC
                  { s with rng :=
                      (uniform s.cfg.svcLo s.cfg.svcHi (randUnit s.rng).2).2 }
                  i { p with phase := .inService k reqT grantT s.now iter } with
                agenda := schedule
                  (s.now + (uniform s.cfg.svcLo s.cfg.svcHi (randUnit s.rng).2).1)
                  (.svcDone i) s.agenda }
    | _ => .error .protocolError

/-- Lines 58-68 and the `with`-block exit: service completed.  Record the
end time, bump the success counter, append the latency and delay samples
to the overall and discipline-keyed lists, give the slot back, and go to
the next loop iteration. -/
def handleSvcDone (s : Sim) (i : Nat) : Except SimErr Sim :=
  match s.pcs[i]? with
  | none => .error .protocolError
  | some p =>
    match p.phase with
    | .inService k reqT grantT svcStart iter =>
      match s.switches[k]? with
      | none => .error .protocolError
      | some sw =>
        match
          (releaseSlot
            { s with
              pcs := s.pcs.set i { p with successful := p.successful + 1 },
              overallLat := s.overallLat ++ [s.now - svcStart],
              overallDel := s.overallDel ++ [s.now - reqT],
              latF := if sw.disc = .fifo then s.latF ++ [s.now - svcStart]
                      else s.latF,
              delF := if sw.disc = .fifo then s.delF ++ [s.now - reqT]
                      else s.delF,
              latP := if sw.disc = .fifo then s.latP
                      else s.latP ++ [s.now - svcStart],
              delP := if sw.disc = .fifo then s.delP
                      else s.delP ++ [s.now - reqT],
              outcomes := s.outcomes ++ [(i, iter, .succeeded)],
              records := s.records ++
                [⟨i, iter, k, reqT, grantT, some svcStart, some s.now, s.now,
                  .succeeded⟩] }
            k i).pcs[i]? with
        | none => .error .protocolError
        | some p2 =>
          .ok (beginIteration
                (releaseSlot
                  { s with
                    pcs := s.pcs.set i { p with successful := p.successful + 1 },
                    overallLat := s.overallLat ++ [s.now - svcStart],
                    overallDel := s.overallDel ++ [s.now - reqT],
                    latF := if sw.disc = .fifo then s.latF ++ [s.now - svcStart]
                            else s.latF,
                    delF := if sw.disc = .fifo then s.delF ++ [s.now - reqT]
                            else s.delF,
                    latP := if sw.disc = .fifo then s.latP
                            else s.latP ++ [s.now - svcStart],
                    delP := if sw.disc = .fifo then s.delP
                            else s.delP ++ [s.now - reqT],
                    outcomes := s.outcomes ++ [(i, iter, .succeeded)],
                    records := s.records ++
                      [⟨i, iter, k, reqT, grantT, some svcStart, some s.now,
                        s.now, .succeeded⟩] }
                  k i) i p2)
    | _ => .error .protocolError

/-- Dispatch one agenda event to its handler. -/
def handleEv (s : Sim) : Ev → Except SimErr Sim
  | .procStart i =>
    match s.pcs[i]? with
    | none => .error .protocolError
    | some p => .ok (beginIteration s i p)
  | .afterThink i => handleAfterThink s i
  | .granted i => handleGranted s i
  | .svcDone i => handleSvcDone s i

/-- Result of one scheduler step. -/
inductive StepRes
  | done
  | fail (e : SimErr)
  | next (s : Sim)

/-- One scheduler step: pop the earliest event, advance the clock to its
time, run its handler. -/
def step (s : Sim) : StepRes :=
  match s.agenda with
  | [] => .done
  | (t, e) :: rest =>
    match handleEv { s with now := t, agenda := rest } e with
    | .error er => .fail er
    | .ok s' => .next s'

/-- PC construction (line 114). -/
def mkPC (cfg : Config) (idx : Nat) : PCState :=
  ⟨"PC" ++ toString (idx + 1), cfg.numRequests, 0, .idle⟩

/-- Switch construction (lines 99-105): `fifoCount` FIFO switches then
`priorityCount` Priority switches, all with the configured capacity. -/
def mkSwitches (cfg : Config) : List Switch :=
  ((List.range cfg.fifoCount).map fun i =>
    ⟨"FIFO Switch " ++ toString (i + 1), .fifo, cfg.switchCapacity, [], []⟩)
  ++ ((List.range cfg.priorityCount).map fun i =>
    ⟨"Priority Switch " ++ toString (i + 1), .priority, cfg.switchCapacity,
      [], []⟩)

/-- Dict assignment `switch_stats[name] = {...}`: overwrite the entry if
the key exists, else append a new entry. -/
def upsert (stats : List StatEntry) (e : StatEntry) : List StatEntry :=
  if stats.any fun x => x.name = e.name then
    stats.map fun x => if x.name = e.name then e else x
  else stats ++ [e]

/-- The `switch_stats` dict after module load: the comprehension of line
22 creates `numSwitches` placeholder keys `Switch i`, then lines 108-109
assign a fresh entry for every constructed switch. -/
def initStats (cfg : Config) : List StatEntry :=
  (mkSwitches cfg).foldl (fun st sw => upsert st ⟨sw.name, [], []⟩)
    ((List.range cfg.numSwitches).map fun i =>
      ⟨"Switch " ++ toString (i + 1), [], []⟩)

/-- State after module set-up (lines 92-116): empty collections, all PC
coroutines scheduled to start at time 0 in creation order. -/
def setup (cfg : Config) (seed : Nat) : Sim :=
  { cfg := cfg,
    now := 0,
    rng := seed,
    agenda := (List.range cfg.numPCs).map fun i => ((0 : ℚ), Ev.procStart i),
    pcs := (List.range cfg.numPCs).map (mkPC cfg),
    switches := mkSwitches cfg,
    servers := (List.range cfg.numServers).map fun i =>
      "Server" ++ toString (i + 1),
    dataLossFifo := 0,
    dataLossPriority := 0,
    latF := [],
    latP := [],
    delF := [],
    delP := [],
    overallLat := [],
    overallDel := [],
    switchStats := initStats cfg,
    outcomes := [],
    records := [] }

/-- The `env.run()` loop (line 119), with explicit fuel: steps until the
agenda is empty or an error is raised. -/
def runSim : Nat → Sim → Except SimErr Sim
  | 0, s => .ok s
  | n + 1, s =>
    match step s with
    | .done => .ok s
    | .fail e => .error e
    | .next s' => runSim n s'

/-- Build the initial state and run it. -/
def runFrom (fuel : Nat) (cfg : Config) (seed : Nat) : Except SimErr Sim :=
  runSim fuel (setup cfg seed)

/-- Summary statistics computed after the run (lines 122-126). -/
structure Summary where
  throughput : ℚ
  avgLatF : ℚ
  avgLatP : ℚ
  avgDelF : ℚ
  avgDelP : ℚ
  lossF : Nat
  lossP : Nat
deriving DecidableEq

/-- The mean as `numpy.mean` computes it on a non-empty sequence. -/
def npMean (l : List ℚ) : ℚ := l.sum / (l.length : ℚ)

/-- The guarded average of lines 123-126: `np.mean(l) if l else 0`. -/
def avgOrZero (l : List ℚ) : ℚ := if l = [] then 0 else npMean l

/-- Lines 122-126: throughput and the four guarded averages, plus the two
loss counters printed at lines 129-130. -/
def summary (s : Sim) : Summary :=
  { throughput := ((s.pcs.map PCState.successful).sum : ℚ) / s.now,
    avgLatF := avgOrZero s.latF,
    avgLatP := avgOrZero s.latP,
    avgDelF := avgOrZero s.delF,
    avgDelP := avgOrZero s.delP,
    lossF := s.dataLossFifo,
    lossP := s.dataLossPriority }

/-- One-step reachability: the scheduler takes state `s` to state `s'`. -/
def StepTo (s s' : Sim) : Prop := step s = .next s'

/-- Reachability: `s'` occurs during a run started at `s`. -/
def Reach (s s' : Sim) : Prop := Relation.ReflTransGen StepTo s s'

/-- Whether a run result is a state (no exception escaped). -/
def ranOk : Except SimErr Sim → Bool
  | .ok _ => true
  | .error _ => false

/-- Extract the final state of a successful run (default otherwise). -/
def okSim (d : Sim) : Except SimErr Sim → Sim
  | .ok s => s
  | .error _ => d

/-- The concrete scenario of spec section 8: one PC with quota 1, one
FIFO switch of capacity 1, one server, loss probability forced to 0. -/
def cfg9 : Config :=
  { defaultConfig with numRequests := 1, numPCs := 1, numServers := 1,
                       fifoCount := 1, priorityCount := 0, lossProb := 0 }

/-- The final state of the concrete scenario run under seed 2025. -/
def s9 : Sim := okSim (setup cfg9 2025) (runFrom 10 cfg9 2025)

/-- An invalid configuration: zero queues (no switches at all). -/
def cfg0 : Config :=
  { defaultConfig with fifoCount := 0, priorityCount := 0, numPCs := 1 }

/-- The twelve placeholder keys `Switch 1` .. `Switch 12` that line 22
creates from `NUM_SWITCHES` before any switch is constructed. -/
def placeholderNames : List String :=
  (List.range defaultConfig.numSwitches).map fun i =>
    "Switch " ++ toString (i + 1)

/-- PC state used by the concrete grant-handler exercise. -/
def cw4p : PCState := ⟨"PC1", 3, 5, .grantedWait 0 0 1 2 2⟩

/-- Switch used by the concrete grant-handler exercise. -/
def cw4sw : Switch := ⟨"FIFO Switch 1", .fifo, 1, [0], []⟩

/-- A state whose PC 0 has just been granted a slot on the FIFO switch 0
(used to exercise the grant handler on concrete data). -/
def cw4 : Sim :=
  { cfg := { defaultConfig with lossProb := 1 },
    now := 2,
    rng := 0,
    agenda := [],
    pcs := [cw4p],
    switches := [cw4sw],
    servers := ["Server1"],
    dataLossFifo := 4,
    dataLossPriority := 2,
    latF := [1],
    latP := [],
    delF := [2],
    delP := [],
    overallLat := [1],
    overallDel := [2],
    switchStats := [⟨"FIFO Switch 1", [0], []⟩],
    outcomes := [(0, 3, .succeeded)],
    records := [] }

/-- The grant handler's output on `cw4`. -/
def cw4r : Sim := okSim cw4 (handleGranted cw4 0)

/-- PC state used by the concrete arrival-handler exercise. -/
def cw6p : PCState := ⟨"PC1", 3, 5, .thinking 2⟩

/-- Switch used by the concrete arrival-handler exercise. -/
def cw6sw : Switch := ⟨"FIFO Switch 1", .fifo, 1, [1], [⟨1, 0, 0, 1, 1⟩]⟩

/-- A state whose PC 0 has just finished its think time, with one switch
whose waiting queue holds one request (used to exercise the arrival
handler on concrete data). -/
def cw6 : Sim :=
  { cfg := defaultConfig,
    now := 3,
    rng := 0,
    agenda := [],
    pcs := [cw6p, ⟨"PC2", 3, 0, .waitingGrant 0 1⟩],
    switches := [cw6sw],
    servers := ["Server1"],
    dataLossFifo := 0,
    dataLossPriority := 0,
    latF := [],
    latP := [],
    delF := [],
    delP := [],
    overallLat := [],
    overallDel := [],
    switchStats := [⟨"FIFO Switch 1", [0], []⟩, ⟨"Switch 1", [], []⟩],
    outcomes := [],
    records := [] }

/-- The arrival handler's output on `cw6`. -/
def cw6r : Sim := okSim cw6 (handleAfterThink cw6 0)

/-- A state with concrete latency samples (used to exercise the run-end
averaging on concrete data). -/
def s8 : Sim := { cw6 with latF := [1, 2], delF := [3] }

/-- The coroutine positions in which PC `i` holds a slot of switch `k`:
from the instant the switch granted the slot until the `with` block of
line 46 is left. -/
def PhaseHolds : Phase → Nat → Prop
  | .grantedWait k _ _ _ _, k' => k = k'
  | .inService k _ _ _ _, k' => k = k'
  | _, _ => False

/-- Well-formedness of a finished request record: a served request's slot
was given back exactly at service completion, and a lost request never
started service. -/
def RecordOk (r : ReqRecord) : Prop :=
  (r.outcome = .succeeded → r.svcEnd = some r.releaseT) ∧
  (r.outcome = .lost → r.svcStart = none ∧ r.svcEnd = none)

/-- PC `j`'s slot accounting is consistent: whenever its coroutine is
between grant and release on switch `k`, it occupies one of `k`'s user
slots. -/
def HoldingOk (s : Sim) (j : Nat) : Prop :=
  ∀ p, s.pcs[j]? = some p → ∀ k, PhaseHolds p.phase k →
    ∃ sw, s.switches[k]? = some sw ∧ j ∈ sw.users

/-- State invariants that do not mention the PC coroutines. -/
structure InvCore (cfg : Config) (s : Sim) : Prop where
  cfgEq : s.cfg = cfg
  swNames : s.switches.map Switch.name = (mkSwitches cfg).map Switch.name
  caps : ∀ sw ∈ s.switches, sw.users.length ≤ sw.capacity
  prios : ∀ sw ∈ s.switches, ∀ w ∈ sw.waiting, w.prio = 0
  utilEmpty : ∀ e ∈ s.switchStats, e.utilization = []
  statNames : s.switchStats.map StatEntry.name =
    (initStats cfg).map StatEntry.name
  phEmpty : ∀ e ∈ s.switchStats,
    e.name ∉ s.switches.map Switch.name → e.queue_lengths = []
  recs : ∀ r ∈ s.records, RecordOk r

/-- The run invariant: the core invariants plus slot accounting for every
PC. -/
def Inv (cfg : Config) (s : Sim) : Prop :=
  InvCore cfg s ∧ ∀ j, HoldingOk s j

/-- The core invariants plus slot accounting for every PC except `i`
(used across the release-then-loop-again instant inside `i`'s own event
handler). -/
def InvAway (cfg : Config) (s : Sim) (i : Nat) : Prop :=
  InvCore cfg s ∧ ∀ j, j ≠ i → HoldingOk s j

theorem selectFifo_some {l : List Waiter} {w : Waiter} {rest : List Waiter}
    (h : selectFifo l = some (w, rest)) : w ∈ l ∧ ∀ x ∈ rest, x ∈ l := by
  cases l with
  | nil => simp [selectFifo] at h
  | cons a as =>
    simp only [selectFifo, Option.some.injEq, Prod.mk.injEq] at h
    obtain ⟨rfl, rfl⟩ := h
    exact ⟨List.mem_cons_self _ _, fun x hx => List.mem_cons_of_mem _ hx⟩

theorem selectPriority_some {l : List Waiter} {w : Waiter} {rest : List Waiter}
    (h : selectPriority l = some (w, rest)) : w ∈ l ∧ ∀ x ∈ rest, x ∈ l := by
  induction l generalizing w rest with
  | nil => simp [selectPriority] at h
  | cons a as ih =>
    rw [selectPriority] at h
    split at h
    · simp only [Option.some.injEq, Prod.mk.injEq] at h
      obtain ⟨rfl, rfl⟩ := h
      exact ⟨List.mem_cons_self _ _, fun x hx => List.mem_cons_of_mem _ hx⟩
    · rename_i m mrest hs
      obtain ⟨hm, hrest⟩ := ih hs
      split at h
      · simp only [Option.some.injEq, Prod.mk.injEq] at h
        obtain ⟨rfl, rfl⟩ := h
        refine ⟨List.mem_cons_of_mem _ hm, fun x hx => ?_⟩
        rcases List.mem_cons.1 hx with rfl | hx
        · exact List.mem_cons_self _ _
        · exact List.mem_cons_of_mem _ (hrest x hx)
      · simp only [Option.some.injEq, Prod.mk.injEq] at h
        obtain ⟨rfl, rfl⟩ := h
        exact ⟨List.mem_cons_self _ _, fun x hx => List.mem_cons_of_mem _ hx⟩

theorem selectNext_some {d : Discipline} {l : List Waiter} {w : Waiter}
    {rest : List Waiter} (h : selectNext d l = some (w, rest)) :
    w ∈ l ∧ ∀ x ∈ rest, x ∈ l := by
  cases d with
  | fifo => exact selectFifo_some h
  | priority => exact selectPriority_some h

/-- With uniform priority keys, the priority policy picks exactly the
FIFO choice: the head of the arrival-ordered waiting queue. -/
theorem selectPriority_eq_selectFifo {l : List Waiter}
    (h : ∀ w ∈ l, w.prio = 0) : selectPriority l = selectFifo l := by
  induction l with
  | nil => rfl
  | cons a as ih =>
    rw [selectPriority]
    rcases hs : selectPriority as with _ | ⟨m, mrest⟩
    · rfl
    · have hm : m ∈ as := (selectPriority_some hs).1
      have hlt : ¬ m.prio < a.prio := by
        rw [h m (List.mem_cons_of_mem _ hm), h a (List.mem_cons_self _ _)]
        exact lt_irrefl 0
      show (if m.prio < a.prio then some (m, a :: mrest) else some (a, as)) =
        selectFifo (a :: as)
      rw [if_neg hlt]
      rfl

theorem appendSample_getElem? (st : List StatEntry) (n : String) (len : Nat)
    (j : Nat) : (appendSample st n len)[j]? = st[j]?.map fun e =>
      if e.name = n then { e with queue_lengths := e.queue_lengths ++ [len] }
      else e := by
  unfold appendSample
  rw [List.getElem?_map]

theorem InvCore.of_fields {cfg : Config} {s s' : Sim} (h : InvCore cfg s)
    (h1 : s'.cfg = s.cfg) (h2 : s'.switches = s.switches)
    (h3 : s'.switchStats = s.switchStats) (h4 : s'.records = s.records) :
    InvCore cfg s' :=
  ⟨h1.trans h.cfgEq, by rw [h2]; exact h.swNames, by rw [h2]; exact h.caps,
   by rw [h2]; exact h.prios, by rw [h3]; exact h.utilEmpty,
   by rw [h3]; exact h.statNames, by rw [h2, h3]; exact h.phEmpty,
   by rw [h4]; exact h.recs⟩

theorem set_self_of_getElem? {α : Type} {l : List α} {k : Nat} {a : α}
    (h : l[k]? = some a) : l.set k a = l := by
  induction l generalizing k with
  | nil => simp at h
  | cons x xs ih =>
    cases k with
    | zero =>
      simp only [List.getElem?_cons_zero, Option.some.injEq] at h
      simp [h]
    | succ n =>
      simp only [List.getElem?_cons_succ] at h
      simp [ih h]

theorem map_name_set {l : List Switch} {k : Nat} {sw sw' : Switch}
    (h : l[k]? = some sw) (hn : sw'.name = sw.name) :
    (l.set k sw').map Switch.name = l.map Switch.name := by
  rw [List.map_set]
  apply set_self_of_getElem?
  rw [List.getElem?_map, h, Option.map_some', hn]

theorem appendSample_names (st : List StatEntry) (n : String) (len : Nat) :
    (appendSample st n len).map StatEntry.name = st.map StatEntry.name := by
  induction st with
  | nil => rfl
  | cons e es ih =>
    simp only [appendSample, List.map_cons, List.map_map] at ih ⊢
    by_cases h : e.name = n <;> simp [h, ih]

theorem mem_appendSample {st : List StatEntry} {n : String} {len : Nat}
    {e' : StatEntry} (h : e' ∈ appendSample st n len) :
    ∃ e ∈ st, e'.name = e.name ∧ e'.utilization = e.utilization ∧
      (e'.queue_lengths = e.queue_lengths ∨
        (e'.name = n ∧ e'.queue_lengths = e.queue_lengths ++ [len])) := by
  rw [appendSample, List.mem_map] at h
  obtain ⟨e, he, rfl⟩ := h
  by_cases hn : e.name = n
  · exact ⟨e, he, by simp [hn]⟩
  · exact ⟨e, he, by simp [hn]⟩


theorem beginIteration_cfg (s : Sim) (i : Nat) (p : PCState) :
    (beginIteration s i p).cfg = s.cfg := by
  unfold beginIteration setPC
  split <;> rfl

theorem beginIteration_switches (s : Sim) (i : Nat) (p : PCState) :
    (beginIteration s i p).switches = s.switches := by
  unfold beginIteration setPC
  split <;> rfl

theorem beginIteration_switchStats (s : Sim) (i : Nat) (p : PCState) :
    (beginIteration s i p).switchStats = s.switchStats := by
  unfold beginIteration setPC
  split <;> rfl

theorem beginIteration_records (s : Sim) (i : Nat) (p : PCState) :
    (beginIteration s i p).records = s.records := by
  unfold beginIteration setPC
  split <;> rfl

theorem beginIteration_pcs (s : Sim) (i : Nat) (p : PCState) :
    ∃ rem ph, (ph = Phase.finished ∨ ∃ it, ph = Phase.thinking it) ∧
      (beginIteration s i p).pcs =
        s.pcs.set i ⟨p.name, rem, p.successful, ph⟩ := by
  unfold beginIteration setPC
  split
  · exact ⟨p.remaining, .finished, Or.inl rfl, rfl⟩
  · exact ⟨p.remaining - 1, .thinking (p.remaining - 1),
      Or.inr ⟨p.remaining - 1, rfl⟩, rfl⟩

theorem phase_nonholding {ph : Phase}
    (h : ph = Phase.finished ∨ ∃ it, ph = Phase.thinking it) (k : Nat) :
    ¬ PhaseHolds ph k := by
  rcases h with rfl | ⟨it, rfl⟩ <;> exact fun hk => hk

theorem invCore_beginIteration {cfg : Config} {s : Sim} {i : Nat}
    {p : PCState} (h : InvCore cfg s) : InvCore cfg (beginIteration s i p) :=
  h.of_fields (beginIteration_cfg s i p) (beginIteration_switches s i p)
    (beginIteration_switchStats s i p) (beginIteration_records s i p)

theorem inv_beginIteration_of_away {cfg : Config} {s : Sim} {i : Nat}
    {p : PCState} (h : InvAway cfg s i) : Inv cfg (beginIteration s i p) := by
  refine ⟨invCore_beginIteration h.1, fun j => ?_⟩
  intro q hq k hk
  obtain ⟨rem, ph, hph, hpcs⟩ := beginIteration_pcs s i p
  rw [hpcs] at hq
  rw [beginIteration_switches]
  by_cases hji : j = i
  · subst hji
    rw [List.getElem?_set, if_pos rfl] at hq
    by_cases hlen : j < s.pcs.length
    · rw [if_pos hlen] at hq
      injection hq with hq
      subst hq
      exact absurd hk (phase_nonholding hph k)
    · rw [if_neg hlen] at hq
      simp at hq
  · rw [List.getElem?_set_ne (fun hij => hji hij.symm)] at hq
    exact h.2 j hji q hq k hk

theorem releaseSlot_cfg (s : Sim) (k i : Nat) :
    (releaseSlot s k i).cfg = s.cfg := by
  unfold releaseSlot setSwitch setPC
  repeat' split
  all_goals rfl

theorem releaseSlot_switchStats (s : Sim) (k i : Nat) :
    (releaseSlot s k i).switchStats = s.switchStats := by
  unfold releaseSlot setSwitch setPC
  repeat' split
  all_goals rfl

theorem releaseSlot_records (s : Sim) (k i : Nat) :
    (releaseSlot s k i).records = s.records := by
  unfold releaseSlot setSwitch setPC
  repeat' split
  all_goals rfl

theorem lt_of_getElem?_some {α : Type} {l : List α} {n : Nat} {a : α}
    (h : l[n]? = some a) : n < l.length :=
  (List.getElem?_eq_some.1 h).1

theorem getElem?_set_self_of_some {α : Type} {l : List α} {n : Nat} {a b : α}
    (h : l[n]? = some a) : (l.set n b)[n]? = some b := by
  rw [List.getElem?_set, if_pos rfl, if_pos (lt_of_getElem?_some h)]

theorem invAway_setSwitch_shrink {cfg : Config} {s : Sim} {k i : Nat}
    {sw : Switch} {wl : List Waiter} (h : InvAway cfg s i)
    (hk : s.switches[k]? = some sw) (hw : ∀ x ∈ wl, x ∈ sw.waiting) :
    InvAway cfg
      (setSwitch s k { sw with users := sw.users.erase i, waiting := wl }) i := by
  obtain ⟨hc, hH⟩ := h
  have hmem : sw ∈ s.switches := List.getElem?_mem hk
  have hnames : (s.switches.set k
      { sw with users := sw.users.erase i, waiting := wl }).map Switch.name =
      s.switches.map Switch.name := map_name_set hk rfl
  refine ⟨⟨hc.cfgEq, ?_, ?_, ?_, hc.utilEmpty, hc.statNames, ?_, hc.recs⟩, ?_⟩
  · exact hnames.trans hc.swNames
  · intro sw2 hsw2
    rcases List.mem_or_eq_of_mem_set hsw2 with hsw2 | rfl
    · exact hc.caps sw2 hsw2
    · exact le_trans (List.length_erase_le _ _) (hc.caps sw hmem)
  · intro sw2 hsw2
    rcases List.mem_or_eq_of_mem_set hsw2 with hsw2 | rfl
    · exact hc.prios sw2 hsw2
    · intro w hwm
      exact hc.prios sw hmem w (hw w hwm)
  · intro e he hne
    have hne2 : e.name ∉ s.switches.map Switch.name := by
      rw [← hnames]
      exact hne
    exact hc.phEmpty e he hne2
  · intro j hji q hq k2 hk2
    obtain ⟨sw0, hsw0, hju⟩ := hH j hji q hq k2 hk2
    by_cases hkk : k2 = k
    · subst hkk
      rw [hk] at hsw0
      injection hsw0 with hsw0
      subst hsw0
      exact ⟨_, getElem?_set_self_of_some hk, (List.mem_erase_of_ne hji).2 hju⟩
    · refine ⟨sw0, ?_, hju⟩
      show (s.switches.set k
        { sw with users := sw.users.erase i, waiting := wl })[k2]? = some sw0
      rw [List.getElem?_set_ne (fun hh => hkk hh.symm)]
      exact hsw0

theorem invAway_releaseSlot {cfg : Config} {s : Sim} {k i : Nat}
    (h : InvAway cfg s i) : InvAway cfg (releaseSlot s k i) i := by
  unfold releaseSlot
  split
  · exact h
  · rename_i sw hk
    split
    · rename_i hguard
      split
      · exact invAway_setSwitch_shrink h hk (fun x hx => hx)
      · rename_i w rest hsel
        split
        · exact invAway_setSwitch_shrink h hk (selectNext_some hsel).2
        · rename_i q hq
          obtain ⟨hc, hH⟩ := h
          have hmem : sw ∈ s.switches := List.getElem?_mem hk
          have hwmem := selectNext_some hsel
          have hnames : (s.switches.set k
              { sw with users := sw.users.erase i ++ [w.pc],
                        waiting := rest }).map Switch.name =
              s.switches.map Switch.name := map_name_set hk rfl
          refine ⟨⟨hc.cfgEq, ?_, ?_, ?_, hc.utilEmpty, hc.statNames, ?_,
            hc.recs⟩, ?_⟩
          · exact hnames.trans hc.swNames
          · intro sw2 hsw2
            rcases List.mem_or_eq_of_mem_set hsw2 with hsw2 | rfl
            · exact hc.caps sw2 hsw2
            · simpa using hguard
          · intro sw2 hsw2
            rcases List.mem_or_eq_of_mem_set hsw2 with hsw2 | rfl
            · exact hc.prios sw2 hsw2
            · intro x hx
              exact hc.prios sw hmem x (hwmem.2 x hx)
          · intro e he hne
            have hne2 : e.name ∉ s.switches.map Switch.name := by
              rw [← hnames]
              exact hne
            exact hc.phEmpty e he hne2
          · intro j hji q2 hq2 k2 hk2
            have hq2b : (s.pcs.set w.pc
                { q with phase :=
                    Phase.grantedWait k w.srv w.reqTime s.now w.iter })[j]? =
                some q2 := hq2
            by_cases hjw : j = w.pc
            · subst hjw
              rw [getElem?_set_self_of_some hq] at hq2b
              injection hq2b with hq2b
              subst hq2b
              obtain rfl : k = k2 := hk2
              refine ⟨{ sw with users := sw.users.erase i ++ [w.pc],
                                waiting := rest }, ?_,
                List.mem_append_right _ (List.mem_singleton.2 rfl)⟩
              exact getElem?_set_self_of_some hk
            · rw [List.getElem?_set_ne (fun hh => hjw hh.symm)] at hq2b
              obtain ⟨sw0, hsw0, hju⟩ := hH j hji q2 hq2b k2 hk2
              by_cases hkk : k2 = k
              · subst hkk
                rw [hk] at hsw0
                injection hsw0 with hsw0
                subst hsw0
                refine ⟨{ sw with users := sw.users.erase i ++ [w.pc],
                                  waiting := rest }, ?_,
                  List.mem_append_left _ ((List.mem_erase_of_ne hji).2 hju)⟩
                exact getElem?_set_self_of_some hk
              · refine ⟨sw0, ?_, hju⟩
                show (s.switches.set k
                  { sw with users := sw.users.erase i ++ [w.pc],
                            waiting := rest })[k2]? = some sw0
                rw [List.getElem?_set_ne (fun hh => hkk hh.symm)]
                exact hsw0
    · exact invAway_setSwitch_shrink h hk (fun x hx => hx)

theorem inv_to_away {cfg : Config} {s : Sim} (h : Inv cfg s) (i : Nat) :
    InvAway cfg s i :=
  ⟨h.1, fun j _ => h.2 j⟩

theorem inv_handleAfterThink {cfg : Config} {s s' : Sim} {i : Nat}
    (h : Inv cfg s) (hh : handleAfterThink s i = .ok s') : Inv cfg s' := by
  obtain ⟨hc, hH⟩ := h
  unfold handleAfterThink at hh
  split at hh
  · cases hh
  · rename_i p hp
    split at hh
    · rename_i iter hphase
      split at hh
      · cases hh
      · rename_i pair1 k r1 hch1
        split at hh
        · cases hh
        · rename_i pair2 srv r2 hch2
          split at hh
          · cases hh
          · rename_i sw hk
            split at hh
            · rename_i hguard
              injection hh with hh
              subst hh
              have hmem : sw ∈ s.switches := List.getElem?_mem hk
              have hnames : (s.switches.set k
                  { sw with users := sw.users ++ [i] }).map Switch.name =
                  s.switches.map Switch.name := map_name_set hk rfl
              refine ⟨⟨hc.cfgEq, hnames.trans hc.swNames, ?_, ?_, ?_,
                (appendSample_names _ _ _).trans hc.statNames, ?_, hc.recs⟩, ?_⟩
              · intro sw2 hsw2
                rcases List.mem_or_eq_of_mem_set hsw2 with hsw2 | rfl
                · exact hc.caps sw2 hsw2
                · show (sw.users ++ [i]).length ≤ sw.capacity
                  simp only [List.length_append, List.length_singleton]
                  omega
              · intro sw2 hsw2
                rcases List.mem_or_eq_of_mem_set hsw2 with hsw2 | rfl
                · exact hc.prios sw2 hsw2
                · exact fun w hw => hc.prios sw hmem w hw
              · intro e he
                obtain ⟨e0, he0, _, hutil, _⟩ := mem_appendSample he
                rw [hutil]
                exact hc.utilEmpty e0 he0
              · intro e he hne
                have hne2 : e.name ∉ s.switches.map Switch.name := by
                  rw [← hnames]
                  exact hne
                obtain ⟨e0, he0, hname, _, hql⟩ := mem_appendSample he
                rcases hql with hql | ⟨hqn, _⟩
                · rw [hql]
                  refine hc.phEmpty e0 he0 ?_
                  rw [← hname]
                  exact hne2
                · exact absurd (hqn ▸ List.mem_map.2 ⟨sw, hmem, rfl⟩) hne2
              · intro j q hq k2 hk2
                by_cases hji : j = i
                · subst hji
                  have hq2 : (s.pcs.set j
                      { p with phase :=
                          Phase.grantedWait k srv s.now s.now iter })[j]? =
                      some q := hq
                  rw [getElem?_set_self_of_some hp] at hq2
                  injection hq2 with hq2
                  subst hq2
                  obtain rfl : k = k2 := hk2
                  exact ⟨{ sw with users := sw.users ++ [j] },
                    getElem?_set_self_of_some hk,
                    List.mem_append_right _ (List.mem_singleton.2 rfl)⟩
                · have hq2 : (s.pcs.set i
                      { p with phase :=
                          Phase.grantedWait k srv s.now s.now iter })[j]? =
                      some q := hq
                  rw [List.getElem?_set_ne (fun hh2 => hji hh2.symm)] at hq2
                  obtain ⟨sw0, hsw0, hju⟩ := hH j q hq2 k2 hk2
                  by_cases hkk : k2 = k
                  · subst hkk
                    rw [hk] at hsw0
                    injection hsw0 with hsw0
                    subst hsw0
                    exact ⟨{ sw with users := sw.users ++ [i] },
                      getElem?_set_self_of_some hk, List.mem_append_left _ hju⟩
                  · refine ⟨sw0, ?_, hju⟩
                    show (s.switches.set k
                      { sw with users := sw.users ++ [i] })[k2]? = some sw0
                    rw [List.getElem?_set_ne (fun hh2 => hkk hh2.symm)]
                    exact hsw0
            · injection hh with hh
              subst hh
              have hmem : sw ∈ s.switches := List.getElem?_mem hk
              have hnames : (s.switches.set k
                  { sw with waiting :=
                      sw.waiting ++ [⟨i, 0, srv, s.now, iter⟩] }).map Switch.name =
                  s.switches.map Switch.name := map_name_set hk rfl
              refine ⟨⟨hc.cfgEq, hnames.trans hc.swNames, ?_, ?_, ?_,
                (appendSample_names _ _ _).trans hc.statNames, ?_, hc.recs⟩, ?_⟩
              · intro sw2 hsw2
                rcases List.mem_or_eq_of_mem_set hsw2 with hsw2 | rfl
                · exact hc.caps sw2 hsw2
                · exact hc.caps sw hmem
              · intro sw2 hsw2
                rcases List.mem_or_eq_of_mem_set hsw2 with hsw2 | rfl
                · exact hc.prios sw2 hsw2
                · intro w hw
                  rcases List.mem_append.1 hw with hw | hw
                  · exact hc.prios sw hmem w hw
                  · rw [List.mem_singleton.1 hw]
              · intro e he
                obtain ⟨e0, he0, _, hutil, _⟩ := mem_appendSample he
                rw [hutil]
                exact hc.utilEmpty e0 he0
              · intro e he hne
                have hne2 : e.name ∉ s.switches.map Switch.name := by
                  rw [← hnames]
                  exact hne
                obtain ⟨e0, he0, hname, _, hql⟩ := mem_appendSample he
                rcases hql with hql | ⟨hqn, _⟩
                · rw [hql]
                  refine hc.phEmpty e0 he0 ?_
                  rw [← hname]
                  exact hne2
                · exact absurd (hqn ▸ List.mem_map.2 ⟨sw, hmem, rfl⟩) hne2
              · intro j q hq k2 hk2
                by_cases hji : j = i
                · subst hji
                  have hq2 : (s.pcs.set j
                      { p with phase := Phase.waitingGrant k iter })[j]? =
                      some q := hq
                  rw [getElem?_set_self_of_some hp] at hq2
                  injection hq2 with hq2
                  subst hq2
                  exact absurd hk2 (by simp [PhaseHolds])
                · have hq2 : (s.pcs.set i
                      { p with phase := Phase.waitingGrant k iter })[j]? =
                      some q := hq
                  rw [List.getElem?_set_ne (fun hh2 => hji hh2.symm)] at hq2
                  obtain ⟨sw0, hsw0, hju⟩ := hH j q hq2 k2 hk2
                  by_cases hkk : k2 = k
                  · subst hkk
                    rw [hk] at hsw0
                    injection hsw0 with hsw0
                    subst hsw0
                    exact ⟨{ sw with waiting :=
                        sw.waiting ++ [⟨i, 0, srv, s.now, iter⟩] },
                      getElem?_set_self_of_some hk, hju⟩
                  · refine ⟨sw0, ?_, hju⟩
                    show (s.switches.set k
                      { sw with waiting :=
                          sw.waiting ++ [⟨i, 0, srv, s.now, iter⟩] })[k2]? = some sw0
                    rw [List.getElem?_set_ne (fun hh2 => hkk hh2.symm)]
                    exact hsw0
    all_goals cases hh

theorem invAway_of_parts {cfg : Config} {s s' : Sim} {i : Nat}
    (h : InvAway cfg s i) (hcfg : s'.cfg = s.cfg)
    (hsw : s'.switches = s.switches) (hst : s'.switchStats = s.switchStats)
    (hpcs : ∀ j, j ≠ i → s'.pcs[j]? = s.pcs[j]?)
    (hrec : ∀ r ∈ s'.records, RecordOk r) : InvAway cfg s' i := by
  obtain ⟨hc, hH⟩ := h
  refine ⟨⟨hcfg.trans hc.cfgEq, ?_, ?_, ?_, ?_, ?_, ?_, hrec⟩, ?_⟩
  · rw [hsw]
    exact hc.swNames
  · rw [hsw]
    exact hc.caps
  · rw [hsw]
    exact hc.prios
  · rw [hst]
    exact hc.utilEmpty
  · rw [hst]
    exact hc.statNames
  · rw [hsw, hst]
    exact hc.phEmpty
  · intro j hji q hq k2 hk2
    rw [hpcs j hji] at hq
    rw [hsw]
    exact hH j hji q hq k2 hk2

seal rngNext randUnit uniform in
theorem inv_handleGranted {cfg : Config} {s s' : Sim} {i : Nat}
    (h : Inv cfg s) (hh : handleGranted s i = .ok s') : Inv cfg s' := by
  obtain ⟨hc, hH⟩ := h
  unfold handleGranted at hh
  split at hh
  · cases hh
  · rename_i p hp
    split at hh
    · rename_i k srv reqT grantT iter hphase
      split at hh
      · cases hh
      · rename_i sw hk
        split at hh
        · rename_i hloss
          split at hh
          · cases hh
          · rename_i p2 hp2
            injection hh with hh
            subst hh
            refine inv_beginIteration_of_away (invAway_releaseSlot ?_)
            refine invAway_of_parts (inv_to_away ⟨hc, hH⟩ i) rfl rfl rfl
              (fun j hji => rfl) ?_
            intro r hr
            rcases List.mem_append.1 hr with hr | hr
            · exact hc.recs r hr
            · rw [List.mem_singleton.1 hr]
              exact And.intro (fun hco => nomatch hco)
                (fun _ => And.intro rfl rfl)
        · injection hh with hh
          subst hh
          refine ⟨⟨hc.cfgEq, hc.swNames, hc.caps, hc.prios, hc.utilEmpty,
            hc.statNames, hc.phEmpty, hc.recs⟩, ?_⟩
          intro j q hq k2 hk2
          by_cases hji : j = i
          · subst hji
            have hq2 : (s.pcs.set j
                { p with phase :=
                    Phase.inService k reqT grantT s.now iter })[j]? =
                some q := hq
            rw [getElem?_set_self_of_some hp] at hq2
            injection hq2 with hq2
            subst hq2
            obtain rfl : k = k2 := hk2
            exact hH j p hp k (by rw [hphase]; exact rfl)
          · have hq2 : (s.pcs.set i
                { p with phase :=
                    Phase.inService k reqT grantT s.now iter })[j]? =
                some q := hq
            rw [List.getElem?_set_ne (fun hh2 => hji hh2.symm)] at hq2
            exact hH j q hq2 k2 hk2
    all_goals cases hh

seal rngNext randUnit uniform in
theorem inv_handleSvcDone {cfg : Config} {s s' : Sim} {i : Nat}
    (h : Inv cfg s) (hh : handleSvcDone s i = .ok s') : Inv cfg s' := by
  obtain ⟨hc, hH⟩ := h
  unfold handleSvcDone at hh
  split at hh
  · cases hh
  · rename_i p hp
    split at hh
    · rename_i k reqT grantT svcStart iter hphase
      split at hh
      · cases hh
      · rename_i sw hk
        split at hh
        · cases hh
        · rename_i p2 hp2
          injection hh with hh
          subst hh
          refine inv_beginIteration_of_away (invAway_releaseSlot ?_)
          refine invAway_of_parts (inv_to_away ⟨hc, hH⟩ i) rfl rfl rfl
            (fun j hji => List.getElem?_set_ne (fun hh2 => hji hh2.symm)) ?_
          intro r hr
          rcases List.mem_append.1 hr with hr | hr
          · exact hc.recs r hr
          · rw [List.mem_singleton.1 hr]
            exact And.intro (fun _ => rfl) (fun hco => nomatch hco)
    all_goals cases hh

theorem inv_handleEv {cfg : Config} {s s' : Sim} {e : Ev}
    (h : Inv cfg s) (hh : handleEv s e = .ok s') : Inv cfg s' := by
  cases e with
  | procStart i =>
    have hh2 : (match s.pcs[i]? with
      | none => Except.error SimErr.protocolError
      | some p => Except.ok (beginIteration s i p)) = Except.ok s' := hh
    split at hh2
    · cases hh2
    · injection hh2 with hh2
      subst hh2
      exact inv_beginIteration_of_away (inv_to_away h i)
  | afterThink i => exact inv_handleAfterThink h hh
  | granted i => exact inv_handleGranted h hh
  | svcDone i => exact inv_handleSvcDone h hh

theorem inv_stepTo {cfg : Config} {s s' : Sim} (h : Inv cfg s)
    (hst : StepTo s s') : Inv cfg s' := by
  unfold StepTo step at hst
  split at hst
  · cases hst
  · rename_i t e rest
    split at hst
    · cases hst
    · rename_i s2 hok
      injection hst with hst
      subst hst
      refine inv_handleEv ?_ hok
      exact ⟨⟨h.1.cfgEq, h.1.swNames, h.1.caps, h.1.prios, h.1.utilEmpty,
        h.1.statNames, h.1.phEmpty, h.1.recs⟩, fun j => h.2 j⟩

theorem inv_reach {cfg : Config} {s0 s : Sim} (h : Inv cfg s0)
    (hr : Reach s0 s) : Inv cfg s := by
  induction hr with
  | refl => exact h
  | tail _ hst ih => exact inv_stepTo ih hst

theorem mkSwitches_empty {cfg : Config} {sw : Switch}
    (h : sw ∈ mkSwitches cfg) : sw.users = [] ∧ sw.waiting = [] := by
  unfold mkSwitches at h
  rcases List.mem_append.1 h with h | h <;>
  · obtain ⟨idx, _, rfl⟩ := List.mem_map.1 h
    exact ⟨rfl, rfl⟩

theorem upsert_empty {st : List StatEntry} {e : StatEntry}
    (h : ∀ x ∈ st, x.queue_lengths = [] ∧ x.utilization = [])
    (he : e.queue_lengths = [] ∧ e.utilization = []) :
    ∀ x ∈ upsert st e, x.queue_lengths = [] ∧ x.utilization = [] := by
  unfold upsert
  split
  · intro x hx
    rw [List.mem_map] at hx
    obtain ⟨y, hy, rfl⟩ := hx
    split
    · exact he
    · exact h y hy
  · intro x hx
    rcases List.mem_append.1 hx with hx | hx
    · exact h x hx
    · rw [List.mem_singleton.1 hx]
      exact he

theorem foldl_upsert_empty (l : List Switch) (st : List StatEntry)
    (h : ∀ x ∈ st, x.queue_lengths = [] ∧ x.utilization = []) :
    ∀ x ∈ l.foldl (fun st2 sw => upsert st2 ⟨sw.name, [], []⟩) st,
      x.queue_lengths = [] ∧ x.utilization = [] := by
  induction l generalizing st with
  | nil => exact h
  | cons sw l ih => exact ih _ (upsert_empty h ⟨rfl, rfl⟩)

theorem initStats_empty {cfg : Config} {e : StatEntry} (h : e ∈ initStats cfg) :
    e.queue_lengths = [] ∧ e.utilization = [] := by
  refine foldl_upsert_empty (mkSwitches cfg) _ ?_ e h
  intro x hx
  obtain ⟨idx, _, rfl⟩ := List.mem_map.1 hx
  exact ⟨rfl, rfl⟩

theorem inv_setup (cfg : Config) (seed : Nat) : Inv cfg (setup cfg seed) := by
  refine ⟨⟨rfl, rfl, ?_, ?_, ?_, rfl, ?_, ?_⟩, ?_⟩
  · intro sw hsw
    rw [(mkSwitches_empty hsw).1]
    exact Nat.zero_le _
  · intro sw hsw w hw
    rw [(mkSwitches_empty hsw).2] at hw
    cases hw
  · intro e he
    exact (initStats_empty he).2
  · intro e he _
    exact (initStats_empty he).1
  · intro r hr
    cases hr
  · intro j q hq k hk
    have hq2 : ((List.range cfg.numPCs).map (mkPC cfg))[j]? = some q := hq
    rw [List.getElem?_map] at hq2
    rcases hj : (List.range cfg.numPCs)[j]? with _ | idx
    · rw [hj] at hq2
      cases hq2
    · rw [hj] at hq2
      injection hq2 with hq2
      subst hq2
      exact absurd hk (by simp [mkPC, PhaseHolds])

theorem beginIteration_metrics (s : Sim) (i : Nat) (p : PCState) :
    (beginIteration s i p).dataLossFifo = s.dataLossFifo ∧
    (beginIteration s i p).dataLossPriority = s.dataLossPriority ∧
    (beginIteration s i p).latF = s.latF ∧
    (beginIteration s i p).latP = s.latP ∧
    (beginIteration s i p).delF = s.delF ∧
    (beginIteration s i p).delP = s.delP ∧
    (beginIteration s i p).overallLat = s.overallLat ∧
    (beginIteration s i p).overallDel = s.overallDel ∧
    (beginIteration s i p).outcomes = s.outcomes := by
  unfold beginIteration setPC
  split <;> exact ⟨rfl, rfl, rfl, rfl, rfl, rfl, rfl, rfl, rfl⟩

theorem releaseSlot_metrics (s : Sim) (k i : Nat) :
    (releaseSlot s k i).dataLossFifo = s.dataLossFifo ∧
    (releaseSlot s k i).dataLossPriority = s.dataLossPriority ∧
    (releaseSlot s k i).latF = s.latF ∧
    (releaseSlot s k i).latP = s.latP ∧
    (releaseSlot s k i).delF = s.delF ∧
    (releaseSlot s k i).delP = s.delP ∧
    (releaseSlot s k i).overallLat = s.overallLat ∧
    (releaseSlot s k i).overallDel = s.overallDel ∧
    (releaseSlot s k i).outcomes = s.outcomes := by
  unfold releaseSlot setSwitch setPC
  repeat' split
  all_goals exact ⟨rfl, rfl, rfl, rfl, rfl, rfl, rfl, rfl, rfl⟩

theorem releaseSlot_pcs_shape (s : Sim) (k i : Nat) (j : Nat) (q : PCState)
    (h : (releaseSlot s k i).pcs[j]? = some q) :
    ∃ q0, s.pcs[j]? = some q0 ∧ q.name = q0.name ∧
      q.remaining = q0.remaining ∧ q.successful = q0.successful := by
  unfold releaseSlot setSwitch setPC at h
  split at h
  · exact ⟨q, h, rfl, rfl, rfl⟩
  · rename_i sw hk
    split at h
    · split at h
      · exact ⟨q, h, rfl, rfl, rfl⟩
      · rename_i w rest hsel
        split at h
        · exact ⟨q, h, rfl, rfl, rfl⟩
        · rename_i q1 hq1
          by_cases hjw : j = w.pc
          · subst hjw
            rw [getElem?_set_self_of_some hq1] at h
            injection h with h
            subst h
            exact ⟨q1, hq1, rfl, rfl, rfl⟩
          · rw [List.getElem?_set_ne (fun hh => hjw hh.symm)] at h
            exact ⟨q, h, rfl, rfl, rfl⟩
    · exact ⟨q, h, rfl, rfl, rfl⟩

theorem releaseSlot_users (s : Sim) (k i : Nat) (sw : Switch)
    (h : s.switches[k]? = some sw) :
    ∃ sw', (releaseSlot s k i).switches[k]? = some sw' ∧
      (sw'.users = sw.users.erase i ∨
        ∃ j, sw'.users = sw.users.erase i ++ [j]) := by
  unfold releaseSlot
  split
  · rename_i hk
    rw [h] at hk
    cases hk
  · rename_i sw2 hk
    rw [h] at hk
    injection hk with hk
    subst hk
    split
    · split
      · exact ⟨_, getElem?_set_self_of_some h, Or.inl rfl⟩
      · rename_i w rest hsel
        split
        · exact ⟨_, getElem?_set_self_of_some h, Or.inl rfl⟩
        · rename_i q1 hq1
          refine ⟨{ sw with users := sw.users.erase i ++ [w.pc], waiting := rest }, ?_, Or.inr ⟨w.pc, rfl⟩⟩
          exact getElem?_set_self_of_some h
    · exact ⟨_, getElem?_set_self_of_some h, Or.inl rfl⟩

theorem randUnit_bounds (r : Nat) :
    0 ≤ (randUnit r).1 ∧ (randUnit r).1 < 1 := by
  unfold randUnit rngNext
  constructor
  · positivity
  · rw [div_lt_one (by norm_num)]
    exact_mod_cast Nat.mod_lt _ (by norm_num)

theorem avgOrZero_spec (l : List ℚ) :
    (l = [] → avgOrZero l = 0) ∧
    (l ≠ [] → avgOrZero l * (l.length : ℚ) = l.sum) := by
  constructor
  · intro h
    rw [avgOrZero, if_pos h]
  · intro h
    rw [avgOrZero, if_neg h, npMean, div_mul_cancel₀]
    exact Nat.cast_ne_zero.2 (fun h0 => h (List.length_eq_zero.1 h0))

theorem beginRelease_pc (s0 : Sim) (k i : Nat) (p2 p3 : PCState)
    (hp2 : (releaseSlot s0 k i).pcs[i]? = some p2)
    (hp3 : (beginIteration (releaseSlot s0 k i) i p2).pcs[i]? = some p3) :
    (∃ q0, s0.pcs[i]? = some q0 ∧ p3.successful = q0.successful) ∧
    (p3.phase = Phase.finished ∨ ∃ it, p3.phase = Phase.thinking it) := by
  obtain ⟨rem, ph, hph, hpcs⟩ := beginIteration_pcs (releaseSlot s0 k i) i p2
  rw [hpcs, getElem?_set_self_of_some hp2] at hp3
  injection hp3 with hp3
  subst hp3
  obtain ⟨q0, hq0, _, _, hsucc⟩ := releaseSlot_pcs_shape s0 k i i p2 hp2
  exact ⟨⟨q0, hq0, hsucc⟩, hph⟩

/-- C1: for a fixed random seed and a fixed configuration, two runs of the
simulation produce identical final states, hence identical summary
statistics (throughput, per-discipline loss counts, mean latencies and
delays) and identical per-request outcome sequences.  All randomness is
threaded through the explicit seedable stream, so the run is a pure
function of the pair (configuration, seed). -/
theorem C1_deterministic_replay (fuel : Nat) (c1 c2 : Config) (a b : Nat)
    (hc : c1 = c2) (hs : a = b) :
    runFrom fuel c1 a = runFrom fuel c2 b ∧
    (runFrom fuel c1 a).map summary = (runFrom fuel c2 b).map summary ∧
    (runFrom fuel c1 a).map Sim.outcomes =
      (runFrom fuel c2 b).map Sim.outcomes := by
  subst hc
  subst hs
  exact ⟨rfl, rfl, rfl⟩

/-- Witness for C1: two runs at the default configuration and seed 7. -/
theorem C1_deterministic_replay_witness :
    runFrom 3 defaultConfig 7 = runFrom 3 defaultConfig 7 ∧
    (runFrom 3 defaultConfig 7).map summary =
      (runFrom 3 defaultConfig 7).map summary ∧
    (runFrom 3 defaultConfig 7).map Sim.outcomes =
      (runFrom 3 defaultConfig 7).map Sim.outcomes :=
  C1_deterministic_replay 3 defaultConfig defaultConfig 7 7 rfl rfl

/-- C2: in every state reachable during a run, every switch's held-slot
count stays within its capacity; in the deployed configuration every
switch has capacity 1. -/
theorem C2_capacity_invariant (cfg : Config) (seed : Nat) (s : Sim)
    (h : Reach (setup cfg seed) s) :
    (∀ sw ∈ s.switches, sw.users.length ≤ sw.capacity) ∧
    (∀ sw ∈ mkSwitches defaultConfig, sw.capacity = 1) :=
  ⟨(inv_reach (inv_setup cfg seed) h).1.caps, by decide⟩

/-- Witness for C2 at the initial state of the default deployment. -/
theorem C2_capacity_invariant_witness :
    (∀ sw ∈ (setup defaultConfig 0).switches,
      sw.users.length ≤ sw.capacity) ∧
    (∀ sw ∈ mkSwitches defaultConfig, sw.capacity = 1) :=
  C2_capacity_invariant defaultConfig 0 (setup defaultConfig 0)
    Relation.ReflTransGen.refl

/-- C3: in every state reachable during a run, a PC whose coroutine is
inside the service section still occupies a slot of the switch it was
granted (the slot is held for the entire service duration), and every
completed served request's slot was given back exactly at its service
completion time, never earlier. -/
theorem C3_slot_held_through_service (cfg : Config) (seed : Nat) (s : Sim)
    (h : Reach (setup cfg seed) s) :
    (∀ i p, s.pcs[i]? = some p → ∀ k reqT grantT t0 iter,
      p.phase = Phase.inService k reqT grantT t0 iter →
      ∃ sw, s.switches[k]? = some sw ∧ i ∈ sw.users) ∧
    (∀ r ∈ s.records, r.outcome = Outcome.succeeded →
      r.svcEnd = some r.releaseT) := by
  have hinv := inv_reach (inv_setup cfg seed) h
  constructor
  · intro i p hp k reqT grantT t0 iter hph
    refine hinv.2 i p hp k ?_
    rw [hph]
    exact rfl
  · intro r hr hsc
    exact (hinv.1.recs r hr).1 hsc

/-- Witness for C3 at the initial state of the default deployment. -/
theorem C3_slot_held_through_service_witness :
    (∀ i p, (setup defaultConfig 0).pcs[i]? = some p →
      ∀ k reqT grantT t0 iter,
      p.phase = Phase.inService k reqT grantT t0 iter →
      ∃ sw, (setup defaultConfig 0).switches[k]? = some sw ∧
        i ∈ sw.users) ∧
    (∀ r ∈ (setup defaultConfig 0).records,
      r.outcome = Outcome.succeeded → r.svcEnd = some r.releaseT) :=
  C3_slot_held_through_service defaultConfig 0 (setup defaultConfig 0)
    Relation.ReflTransGen.refl

/-- C5: in every reachable state, every waiter of every switch carries
the same (default) priority key 0 — `switch.request()` at line 46 never
passes a priority — so the priority policy selects exactly the waiter the
FIFO policy selects: grant order coincides with strict arrival order. -/
theorem C5_priority_degenerates_to_fifo (cfg : Config) (seed : Nat) (s : Sim)
    (h : Reach (setup cfg seed) s) :
    ∀ sw ∈ s.switches, (∀ w ∈ sw.waiting, w.prio = 0) ∧
      selectNext Discipline.priority sw.waiting =
        selectNext Discipline.fifo sw.waiting := by
  have hinv := inv_reach (inv_setup cfg seed) h
  intro sw hsw
  exact ⟨hinv.1.prios sw hsw,
    selectPriority_eq_selectFifo (hinv.1.prios sw hsw)⟩

/-- Witness for C5 at a concrete Priority switch of the default
deployment's initial state. -/
theorem C5_priority_degenerates_to_fifo_witness :
    (∀ w ∈ Switch.waiting ⟨"Priority Switch 1", Discipline.priority, 1, [], []⟩,
      w.prio = 0) ∧
    selectNext Discipline.priority
        (Switch.waiting ⟨"Priority Switch 1", Discipline.priority, 1, [], []⟩) =
      selectNext Discipline.fifo
        (Switch.waiting ⟨"Priority Switch 1", Discipline.priority, 1, [], []⟩) :=
  C5_priority_degenerates_to_fifo defaultConfig 0 (setup defaultConfig 0)
    Relation.ReflTransGen.refl
    ⟨"Priority Switch 1", Discipline.priority, 1, [], []⟩ (by decide)

/-- C7 counterexample: with a zero-queue (invalid) configuration and seed
17, construction succeeds — `setup` returns a state with an empty switch
list and raises nothing — the run then starts (its first step completes),
and the failure appears only later, as an `IndexError` from choosing out
of the empty switch list, not as a `ConfigurationError` at
construction. -/
theorem C7_counterexample :
    (setup cfg0 17).switches = [] ∧
    ranOk (runFrom 1 cfg0 17) = true ∧
    runFrom 5 cfg0 17 = Except.error SimErr.indexError :=
  ⟨rfl, rfl, rfl⟩

/-- C7 amended: the script performs no configuration validation and
defines no `ConfigurationError`; for any seed, the zero-queue
configuration constructs successfully, the run starts, and the first
request issuance fails with an `IndexError` from `random.choice` on the
empty switch list. -/
theorem C7_no_construction_validation (seed : Nat) :
    (setup cfg0 seed).switches = [] ∧
    ranOk (runFrom 1 cfg0 seed) = true ∧
    runFrom 5 cfg0 seed = Except.error SimErr.indexError :=
  ⟨rfl, rfl, rfl⟩

/-- C8: the run-end summarization returns, for each of the four
latency/delay sample sequences, its arithmetic mean (characterized by
mean times length equals sum) and returns 0 — not a division error —
whenever the sequence is empty. -/
theorem C8_mean_zero_if_empty (s : Sim) :
    ((s.latF = [] → (summary s).avgLatF = 0) ∧
     (s.latF ≠ [] →
       (summary s).avgLatF * (s.latF.length : ℚ) = s.latF.sum)) ∧
    ((s.latP = [] → (summary s).avgLatP = 0) ∧
     (s.latP ≠ [] →
       (summary s).avgLatP * (s.latP.length : ℚ) = s.latP.sum)) ∧
    ((s.delF = [] → (summary s).avgDelF = 0) ∧
     (s.delF ≠ [] →
       (summary s).avgDelF * (s.delF.length : ℚ) = s.delF.sum)) ∧
    ((s.delP = [] → (summary s).avgDelP = 0) ∧
     (s.delP ≠ [] →
       (summary s).avgDelP * (s.delP.length : ℚ) = s.delP.sum)) :=
  ⟨avgOrZero_spec s.latF, avgOrZero_spec s.latP, avgOrZero_spec s.delF,
    avgOrZero_spec s.delP⟩

/-- Witness for C8: a non-empty FIFO latency list averages to sum over
length, and an empty Priority latency list averages to 0. -/
theorem C8_mean_zero_if_empty_witness :
    (summary s8).avgLatF * ((s8.latF).length : ℚ) = (s8.latF).sum ∧
    (summary s8).avgLatP = 0 :=
  ⟨(C8_mean_zero_if_empty s8).1.2 (by decide),
   (C8_mean_zero_if_empty s8).2.1.1 rfl⟩

/-- C9 counterexample: in the concrete scenario run (fixed seed 2025, one
generator with quota 1, one capacity-1 FIFO queue, one station, loss
probability 0), the recorded delay equals the recorded latency exactly,
and is smaller than latency plus the minimum think time 0.1 — so the
delay does not include the think-time: `request_time` is recorded at
line 36, after the think timeout of line 35. -/
theorem C9_counterexample :
    runFrom 10 cfg9 2025 = Except.ok s9 ∧
    s9.outcomes = [(0, 0, Outcome.succeeded)] ∧
    s9.delF = s9.latF ∧
    (∀ x ∈ s9.latF, ∀ y ∈ s9.delF, y < x + 1/10) := by
  refine ⟨rfl, ?_, ?_, ?_⟩ <;> decide

/-- C9 amended: the concrete scenario run produces exactly one Succeeded
request, its recorded latency lies in [0.5, 1.5), and its recorded delay
is at least the latency; the delay is measured from issuance — recorded
after the think-time — to completion, so it excludes the think-time (here,
with no contention, delay equals latency). -/
theorem C9_concrete_scenario :
    runFrom 10 cfg9 2025 = Except.ok s9 ∧
    s9.outcomes = [(0, 0, Outcome.succeeded)] ∧
    s9.latF.length = 1 ∧
    (∀ x ∈ s9.latF, 1/2 ≤ x ∧ x < 3/2) ∧
    (∀ x ∈ s9.latF, ∀ y ∈ s9.delF, x ≤ y) := by
  refine ⟨rfl, ?_, ?_, ?_, ?_⟩ <;> decide

/-- C10: during every run of the deployed configuration the statistics
mapping keeps exactly its initial 28 keys (12 placeholders `Switch 1` ..
`Switch 12` from `NUM_SWITCHES = 12` plus the 16 actually constructed
switches), every `utilization` list stays empty, no placeholder name
matches a constructed switch's name, and every entry whose key is not a
constructed switch's name — in particular every placeholder — keeps an
empty `queue_lengths` list. -/
theorem C10_switch_stats_shape (seed : Nat) (s : Sim)
    (h : Reach (setup defaultConfig seed) s) :
    s.switchStats.length = 28 ∧
    s.switches.length = 16 ∧
    placeholderNames.length = 12 ∧
    (∀ e ∈ s.switchStats, e.utilization = []) ∧
    (∀ n ∈ placeholderNames, n ∉ s.switches.map Switch.name) ∧
    (∀ e ∈ s.switchStats, e.name ∉ s.switches.map Switch.name →
      e.queue_lengths = []) := by
  obtain ⟨hc, _⟩ := inv_reach (inv_setup defaultConfig seed) h
  refine ⟨?_, ?_, by decide, hc.utilEmpty, ?_, hc.phEmpty⟩
  · have h1 : s.switchStats.length = (initStats defaultConfig).length := by
      have h2 := congrArg List.length hc.statNames
      simpa using h2
    rw [h1]
    decide
  · have h1 : s.switches.length = (mkSwitches defaultConfig).length := by
      have h2 := congrArg List.length hc.swNames
      simpa using h2
    rw [h1]
    decide
  · intro n hn
    rw [hc.swNames]
    revert hn
    revert n
    decide

/-- Witness for C10 at the initial state of the default deployment. -/
theorem C10_switch_stats_shape_witness :
    (setup defaultConfig 0).switchStats.length = 28 ∧
    (setup defaultConfig 0).switches.length = 16 ∧
    placeholderNames.length = 12 ∧
    (∀ e ∈ (setup defaultConfig 0).switchStats, e.utilization = []) ∧
    (∀ n ∈ placeholderNames,
      n ∉ (setup defaultConfig 0).switches.map Switch.name) ∧
    (∀ e ∈ (setup defaultConfig 0).switchStats,
      e.name ∉ (setup defaultConfig 0).switches.map Switch.name →
      e.queue_lengths = []) :=
  C10_switch_stats_shape 0 (setup defaultConfig 0)
    Relation.ReflTransGen.refl

seal rngNext randUnit uniform in
/-- C4: when a request's slot grant resumes and the drawn uniform value
falls below the loss probability (0.10 in the deployed configuration),
the discipline-keyed loss counter is incremented (the other counter is
untouched), the slot is released immediately (the PC's entry leaves the
switch's user list, at most handing the slot to one waiter), no station
is contacted (a Lost record with no service times is written), no
latency or delay sample is appended to any of the six sample lists, the
generator's success counter is unchanged, and the generator proceeds to
its next iteration; the drawn value always lies in [0,1). -/
theorem C4_loss_counted_not_served (s s2 : Sim) (i k srv iter : Nat)
    (reqT grantT : ℚ) (p : PCState) (sw : Switch)
    (hp : s.pcs[i]? = some p)
    (hph : p.phase = Phase.grantedWait k srv reqT grantT iter)
    (hsw : s.switches[k]? = some sw)
    (hloss : (randUnit s.rng).1 < s.cfg.lossProb)
    (hh : handleGranted s i = .ok s2) :
    (0 ≤ (randUnit s.rng).1 ∧ (randUnit s.rng).1 < 1) ∧
    (sw.disc = Discipline.fifo → s2.dataLossFifo = s.dataLossFifo + 1 ∧
      s2.dataLossPriority = s.dataLossPriority) ∧
    (sw.disc = Discipline.priority →
      s2.dataLossPriority = s.dataLossPriority + 1 ∧
      s2.dataLossFifo = s.dataLossFifo) ∧
    s2.latF = s.latF ∧ s2.latP = s.latP ∧ s2.delF = s.delF ∧
    s2.delP = s.delP ∧ s2.overallLat = s.overallLat ∧
    s2.overallDel = s.overallDel ∧
    (∀ p3, s2.pcs[i]? = some p3 → p3.successful = p.successful ∧
      (p3.phase = Phase.finished ∨ ∃ it, p3.phase = Phase.thinking it)) ∧
    s2.outcomes = s.outcomes ++ [(i, iter, Outcome.lost)] ∧
    s2.records = s.records ++
      [⟨i, iter, k, reqT, grantT, none, none, s.now, Outcome.lost⟩] ∧
    (∃ sw2, s2.switches[k]? = some sw2 ∧
      (sw2.users = sw.users.erase i ∨
        ∃ j, sw2.users = sw.users.erase i ++ [j])) := by
  unfold handleGranted at hh
  simp only [hp] at hh
  simp only [hph] at hh
  simp only [hsw] at hh
  rw [if_pos hloss] at hh
  split at hh
  · cases hh
  · rename_i p2 hp2
    injection hh with hh
    subst hh
    refine ⟨randUnit_bounds s.rng, ?_, ?_, ?_, ?_, ?_, ?_, ?_, ?_, ?_, ?_,
      ?_, ?_⟩
    · intro hdisc
      constructor
      · rw [(beginIteration_metrics _ i p2).1, (releaseSlot_metrics _ k i).1]
        show (if sw.disc = Discipline.fifo then s.dataLossFifo + 1
          else s.dataLossFifo) = s.dataLossFifo + 1
        rw [if_pos hdisc]
      · rw [(beginIteration_metrics _ i p2).2.1,
          (releaseSlot_metrics _ k i).2.1]
        show (if sw.disc = Discipline.priority then s.dataLossPriority + 1
          else s.dataLossPriority) = s.dataLossPriority
        rw [if_neg (by rw [hdisc]; decide)]
    · intro hdisc
      constructor
      · rw [(beginIteration_metrics _ i p2).2.1,
          (releaseSlot_metrics _ k i).2.1]
        show (if sw.disc = Discipline.priority then s.dataLossPriority + 1
          else s.dataLossPriority) = s.dataLossPriority + 1
        rw [if_pos hdisc]
      · rw [(beginIteration_metrics _ i p2).1, (releaseSlot_metrics _ k i).1]
        show (if sw.disc = Discipline.fifo then s.dataLossFifo + 1
          else s.dataLossFifo) = s.dataLossFifo
        rw [if_neg (by rw [hdisc]; decide)]
    · rw [(beginIteration_metrics _ i p2).2.2.1,
        (releaseSlot_metrics _ k i).2.2.1]
    · rw [(beginIteration_metrics _ i p2).2.2.2.1,
        (releaseSlot_metrics _ k i).2.2.2.1]
    · rw [(beginIteration_metrics _ i p2).2.2.2.2.1,
        (releaseSlot_metrics _ k i).2.2.2.2.1]
    · rw [(beginIteration_metrics _ i p2).2.2.2.2.2.1,
        (releaseSlot_metrics _ k i).2.2.2.2.2.1]
    · rw [(beginIteration_metrics _ i p2).2.2.2.2.2.2.1,
        (releaseSlot_metrics _ k i).2.2.2.2.2.2.1]
    · rw [(beginIteration_metrics _ i p2).2.2.2.2.2.2.2.1,
        (releaseSlot_metrics _ k i).2.2.2.2.2.2.2.1]
    · intro p3 hp3
      obtain ⟨⟨q0, hq0, hsucc⟩, hphase3⟩ := beginRelease_pc _ k i p2 p3 hp2 hp3
      have hq0b : s.pcs[i]? = some q0 := hq0
      rw [hp] at hq0b
      injection hq0b with hq0b
      subst hq0b
      exact ⟨hsucc, hphase3⟩
    · rw [(beginIteration_metrics _ i p2).2.2.2.2.2.2.2.2,
        (releaseSlot_metrics _ k i).2.2.2.2.2.2.2.2]
    · rw [beginIteration_records _ i p2, releaseSlot_records _ k i]
    · rw [beginIteration_switches _ i p2]
      exact releaseSlot_users _ k i sw hsw

/-- Witness for C4 on the concrete granted state `cw4` (loss probability
forced to 1 so that the drawn value certainly falls below it). -/
theorem C4_loss_counted_not_served_witness :
    (0 ≤ (randUnit cw4.rng).1 ∧ (randUnit cw4.rng).1 < 1) ∧
    (cw4sw.disc = Discipline.fifo →
      cw4r.dataLossFifo = cw4.dataLossFifo + 1 ∧
      cw4r.dataLossPriority = cw4.dataLossPriority) ∧
    (cw4sw.disc = Discipline.priority →
      cw4r.dataLossPriority = cw4.dataLossPriority + 1 ∧
      cw4r.dataLossFifo = cw4.dataLossFifo) ∧
    cw4r.latF = cw4.latF ∧ cw4r.latP = cw4.latP ∧ cw4r.delF = cw4.delF ∧
    cw4r.delP = cw4.delP ∧ cw4r.overallLat = cw4.overallLat ∧
    cw4r.overallDel = cw4.overallDel ∧
    (∀ p3, cw4r.pcs[0]? = some p3 → p3.successful = cw4p.successful ∧
      (p3.phase = Phase.finished ∨ ∃ it, p3.phase = Phase.thinking it)) ∧
    cw4r.outcomes = cw4.outcomes ++ [(0, 2, Outcome.lost)] ∧
    cw4r.records = cw4.records ++
      [⟨0, 2, 0, 1, 2, none, none, cw4.now, Outcome.lost⟩] ∧
    (∃ sw2, cw4r.switches[0]? = some sw2 ∧
      (sw2.users = cw4sw.users.erase 0 ∨
        ∃ j, sw2.users = cw4sw.users.erase 0 ++ [j])) :=
  C4_loss_counted_not_served cw4 cw4r 0 0 0 2 1 2 cw4p cw4sw rfl rfl rfl
    (by decide) rfl

/-- C6: when a think timeout expires and the PC issues its request, after
the switch and server are chosen the handler appends exactly one
queue-length sample — the chosen switch's current waiting-queue size at
that arrival instant, before the request is enqueued or granted — to the
statistics entry keyed by that switch's name, leaving every other entry
untouched; this happens on the shared path before the grant/wait split,
hence regardless of whether the request is later lost or succeeds. -/
theorem C6_queue_length_sampled_at_arrival (s s2 : Sim)
    (i k srv r1 r2 iter : Nat) (p : PCState) (sw : Switch)
    (hp : s.pcs[i]? = some p)
    (hph : p.phase = Phase.thinking iter)
    (hch1 : choiceIdx s.switches.length s.rng = some (k, r1))
    (hch2 : choiceIdx s.servers.length r1 = some (srv, r2))
    (hsw : s.switches[k]? = some sw)
    (hh : handleAfterThink s i = .ok s2) :
    s2.switchStats = appendSample s.switchStats sw.name sw.waiting.length ∧
    (∀ j : Nat, s2.switchStats[j]? = s.switchStats[j]?.map fun (e : StatEntry) =>
      if e.name = sw.name then
        { e with queue_lengths := e.queue_lengths ++ [sw.waiting.length] }
      else e) := by
  have hmain : s2.switchStats =
      appendSample s.switchStats sw.name sw.waiting.length := by
    unfold handleAfterThink at hh
    simp only [hp] at hh
    simp only [hph] at hh
    simp only [hch1] at hh
    simp only [hch2] at hh
    simp only [hsw] at hh
    split at hh <;>
    · injection hh with hh
      subst hh
      rfl
  refine ⟨hmain, fun j => ?_⟩
  rw [hmain]
  exact appendSample_getElem? s.switchStats sw.name sw.waiting.length j

/-- Witness for C6 on the concrete thinking state `cw6`, whose chosen
switch has one waiter at arrival time. -/
theorem C6_queue_length_sampled_at_arrival_witness :
    cw6r.switchStats =
      appendSample cw6.switchStats cw6sw.name cw6sw.waiting.length ∧
    (∀ j : Nat, cw6r.switchStats[j]? = cw6.switchStats[j]?.map
      fun (e : StatEntry) =>
      if e.name = cw6sw.name then
        { e with queue_lengths := e.queue_lengths ++ [cw6sw.waiting.length] }
      else e) :=
  C6_queue_length_sampled_at_arrival cw6 cw6r 0 0 0 12345 (rngNext 12345) 2
    cw6p cw6sw rfl rfl (by decide) (by decide) rfl rfl

end Projektet
